import Mathlib

/-!
Verification of the audio transcription server: shallow embedding of the
adaptive segmentation and concurrent-reassembly pipeline (chunk planner,
oversize repair, bounded worker pool, progress reporting, result assembly)
together with the upload routing and the small-file request path.
-/

/-- One megabyte, as the source constant MB = 1024 * 1024. -/
def MB : ℕ := 1024 * 1024

/-- The external transcription service hard payload limit, 25 MB. -/
def OPENAI_WHISPER_LIMIT : ℕ := 25 * MB

/-- Target chunk size used by the planner, 24 MB. -/
def OPTIMAL_CHUNK_SIZE : ℕ := 24 * MB

/-- Minimum planned chunk duration in seconds. -/
def MIN_CHUNK_DURATION : ℤ := 120

/-- Maximum planned chunk duration in seconds. -/
def MAX_CHUNK_DURATION : ℤ := 1800

/-- Bound on the number of concurrently processed chunks. -/
def MAX_CONCURRENT_CHUNKS : ℕ := 3

/-- The chunk planner from the source: estimate the average bitrate as
fileSize / fileDuration, floor the duration whose projected size is the
24 MB target, and clamp the result with max(120, min(1800, d)). -/
def calculateOptimalChunkDuration (fileSize fileDuration : ℚ) : ℤ :=
  let estimatedBitrate : ℚ := fileSize / fileDuration
  let targetChunkSize : ℚ := ((24 * MB : ℕ) : ℚ)
  let optimalDuration : ℤ := ⌊targetChunkSize / estimatedBitrate⌋
  max MIN_CHUNK_DURATION (min 1800 optimalDuration)

/-- The three ways the upload route answers a request. -/
inductive RoutePath where
  | badRequest
  | singleRequest
  | chunkedPipeline
deriving DecidableEq

/-- The transcribe route dispatch from the source: no file gives a 400
response, a file strictly larger than OPENAI_WHISPER_LIMIT goes to the
chunked large-file pipeline, everything else is handled inline. -/
def transcribeRoute (hasFile : Bool) (fileSize : ℕ) : RoutePath :=
  if hasFile = false then RoutePath.badRequest
  else if OPENAI_WHISPER_LIMIT < fileSize then RoutePath.chunkedPipeline
  else RoutePath.singleRequest

/-- Observable actions of the small-file request path, in program order. -/
inductive HandlerEv where
  | saveTranscript (text : String)
  | deleteUpload
  | respond (status : ℕ) (success : Bool)
deriving DecidableEq

/-- Whether a handler event is an HTTP response. -/
def isRespondEv : HandlerEv → Bool
  | HandlerEv.respond _ _ => true
  | _ => false

/-- The small-file path of the transcribe route: verify the upload exists,
transcribe it, persist the transcript, delete the upload, answer 200; any
thrown error is answered with a single 500 and nothing else happens. -/
def smallFileHandler (fileExists : Bool) (transcribe : Except String String) :
    List HandlerEv :=
  if fileExists = false then [HandlerEv.respond 500 false]
  else
    match transcribe with
    | Except.ok text =>
        [HandlerEv.saveTranscript text, HandlerEv.deleteUpload,
         HandlerEv.respond 200 true]
    | Except.error _ => [HandlerEv.respond 500 false]

/-- One produced audio segment file: its duration in seconds and its byte
size. -/
structure AudioChunk where
  duration : ℕ
  size : ℕ
deriving DecidableEq

/-- Whether a chunk file exceeds the hard external size limit, the filter
used by the repair scan (strictly greater than 25 MB). -/
def oversizedChunk (c : AudioChunk) : Bool :=
  decide (OPENAI_WHISPER_LIMIT < c.size)

/-- The re-split duration the repair pass computes from the originating
planned segment duration: max(1, floor(segmentDuration / 2)). -/
def newSegmentDuration (segmentDuration : ℕ) : ℕ :=
  max 1 (segmentDuration / 2)

/-- File-system actions the repair cycle performs. -/
inductive FileOp where
  | deleteFile (c : AudioChunk)
  | createFile (c : AudioChunk)
  | renameFile (c : AudioChunk)
deriving DecidableEq

/-- Modelled from the spec: the external media split operation (segmenting
with codec copy) cuts a source into consecutive pieces each at most the
requested duration; a source no longer than the requested duration yields a
single piece identical to the source. This concrete instance cuts one piece
of the requested duration off the front. -/
def copySplit (c : AudioChunk) (t : ℕ) : List AudioChunk :=
  if c.duration ≤ t then [c]
  else [⟨t, c.size / 2⟩, ⟨c.duration - t, c.size - c.size / 2⟩]

/-- One repair pass over the session chunks: every oversized chunk is
re-split at the given duration and deleted, the sub-pieces are created and
then renamed back into the session namespace; compliant chunks are kept
untouched. -/
def repairPass (split : AudioChunk → ℕ → List AudioChunk) (newD : ℕ)
    (chunks : List AudioChunk) : List AudioChunk × List FileOp :=
  let keep := chunks.filter (fun c => !oversizedChunk c)
  let over := chunks.filter (fun c => oversizedChunk c)
  let subs := (over.map (fun c => split c newD)).flatten
  (keep ++ subs,
   (over.map (fun c => (split c newD).map FileOp.createFile ++ [FileOp.deleteFile c])).flatten
     ++ subs.map FileOp.renameFile)

/-- The oversize-repair cycle verifyAndResplitChunks from the source: if no
chunk exceeds the limit it returns at once performing no file operation;
otherwise it runs a repair pass at max(1, floor(segmentDuration / 2)) and
recurses with the same options, so the same segmentDuration, unchanged.
Fuel counts recursive passes; none models a run that has not terminated
within the given number of passes. -/
def verifyAndResplitChunks (split : AudioChunk → ℕ → List AudioChunk)
    (segmentDuration : ℕ) : ℕ → List AudioChunk →
    Option (List AudioChunk × List FileOp)
  | 0, _ => none
  | fuel + 1, chunks =>
    if chunks.all (fun c => !oversizedChunk c) then some (chunks, [])
    else
      match verifyAndResplitChunks split segmentDuration fuel
          (repairPass split (newSegmentDuration segmentDuration) chunks).1 with
      | none => none
      | some (final, ops) =>
        some (final, (repairPass split (newSegmentDuration segmentDuration) chunks).2 ++ ops)

/-- The sequence of re-split durations used by successive repair passes of
verifyAndResplitChunks, in pass order. -/
def repairDurations (split : AudioChunk → ℕ → List AudioChunk)
    (segmentDuration : ℕ) : ℕ → List AudioChunk → List ℕ
  | 0, _ => []
  | fuel + 1, chunks =>
    if chunks.all (fun c => !oversizedChunk c) then []
    else
      newSegmentDuration segmentDuration ::
        repairDurations split segmentDuration fuel
          (repairPass split (newSegmentDuration segmentDuration) chunks).1

/-- An oversized chunk whose duration, 100 seconds, is already at most the
fixed re-split duration max(1, 600 / 2) = 300, so re-splitting it returns
it unchanged. -/
def stuckChunk : AudioChunk := ⟨100, 26 * MB⟩

/-- Maximum number of retries of one transcription call, from the source. -/
def maxRetries : ℕ := 2

/-- The retry loop unrolled from attempt number k with n retries remaining:
a successful attempt returns its text, the last failure is rethrown. -/
def attemptsLeft (attempt : ℕ → Except String String) :
    ℕ → ℕ → Except String String
  | k, 0 => attempt k
  | k, n + 1 =>
    match attempt k with
    | Except.ok t => Except.ok t
    | Except.error _ => attemptsLeft attempt (k + 1) n

/-- The per-chunk transcription call with retry, as in the source: attempts
0 .. maxRetries in order, stopping at the first success. -/
def runWithRetry (attempt : ℕ → Except String String) : Except String String :=
  attemptsLeft attempt 0 maxRetries

/-- The placeholder recorded for a chunk whose transcription failed all
retries, exactly the template string from the source. -/
def placeholderText (chunkIndex : ℕ) (msg : String) : String :=
  "[Error: Chunk " ++ toString (chunkIndex + 1) ++
    " failed to transcribe - " ++ msg ++ "]"

/-- The terminal text recorded for a chunk: the transcription on success,
the placeholder on failure. -/
def chunkResultText (chunkIndex : ℕ) : Except String String → String
  | Except.ok t => t
  | Except.error m => placeholderText chunkIndex m

/-- The progress percentage written while chunks are processed:
floor(20 + (processedChunks / totalChunks) * 70). -/
def progressValue (processed total : ℕ) : ℕ :=
  20 + 70 * processed / total

/-- State of one large-file job inside processChunks: the recorded results
keyed by chunk index (newest first), the counters, the split flag, the
queue of discovered but undispatched chunk indices, the in-flight chunk
indices, the stream of emitted progress updates as (processedChunks,
totalChunks) pairs newest first, and the resolved combined transcription
once completion fired. -/
structure PoolState where
  transcriptionResults : List (ℕ × String)
  totalChunks : ℕ
  processedChunks : ℕ
  active : List ℕ
  isSplittingComplete : Bool
  chunkQueue : List ℕ
  emitted : List (ℕ × ℕ)
  resolvedVal : Option String
deriving DecidableEq

/-- Result lookup as checkCompletion reads it: an entry is pushed only when
it is truthy, so an empty string recorded for an index is skipped. -/
def lookupTruthy (results : List (ℕ × String)) (i : ℕ) : Option String :=
  match results.lookup i with
  | some t => if t = "" then none else some t
  | none => none

/-- The combined transcription checkCompletion resolves with: the truthy
results for indices 0 .. totalChunks - 1 in ascending index order, joined
with single spaces. -/
def combinedTranscription (results : List (ℕ × String)) (totalChunks : ℕ) :
    String :=
  String.intercalate " " ((List.range totalChunks).filterMap (lookupTruthy results))

/-- checkCompletion from the source: once splitting is complete and every
discovered chunk has a recorded result, resolve with the combined
transcription; resolving is effective only once. -/
def checkCompletion (s : PoolState) : PoolState :=
  if s.isSplittingComplete = true ∧ s.processedChunks = s.totalChunks ∧
      s.resolvedVal = none then
    { s with
        resolvedVal :=
          some (combinedTranscription s.transcriptionResults s.totalChunks) }
  else s

/-- The dispatch loop of checkForMoreChunks: while the queue is nonempty
and fewer than MAX_CONCURRENT_CHUNKS chunks are in flight, shift the next
index off the queue, start processing it, and emit the initial progress
update for it. -/
def dispatchGo : PoolState → List ℕ → PoolState
  | s, [] => { s with chunkQueue := [] }
  | s, i :: rest =>
    if s.active.length < MAX_CONCURRENT_CHUNKS then
      dispatchGo
        { s with active := i :: s.active,
                 emitted := (s.processedChunks, s.totalChunks) :: s.emitted }
        rest
    else { s with chunkQueue := i :: rest }

/-- checkForMoreChunks from the source: run the dispatch loop over the
current queue. -/
def checkForMoreChunks (s : PoolState) : PoolState :=
  dispatchGo s s.chunkQueue

/-- Completion of the in-flight chunk i: record its terminal text (retry
outcome or placeholder), count it processed, emit the progress update, take
it out of flight, then run checkForMoreChunks and checkCompletion, as the
try/catch/finally of processChunk does. -/
def finishChunk (attempts : ℕ → ℕ → Except String String) (i : ℕ)
    (s : PoolState) : PoolState :=
  checkCompletion (checkForMoreChunks
    { s with
        transcriptionResults :=
          (i, chunkResultText i (runWithRetry (attempts i))) :: s.transcriptionResults,
        processedChunks := s.processedChunks + 1,
        emitted := (s.processedChunks + 1, s.totalChunks) :: s.emitted,
        active := s.active.erase i })

/-- One tick of the chunk watcher that found k new chunk files: queue their
indices, raise totalChunks, then dispatch. -/
def discoverChunks (k : ℕ) (s : PoolState) : PoolState :=
  checkForMoreChunks
    { s with chunkQueue := s.chunkQueue ++ List.range' s.totalChunks k,
             totalChunks := s.totalChunks + k }

/-- The splitting process signalling completion: set the flag, stop the
watcher, and run the final completion check. -/
def splitComplete (s : PoolState) : PoolState :=
  checkCompletion { s with isSplittingComplete := true }

/-- The empty job state at the start of processChunks. -/
def initState : PoolState :=
  { transcriptionResults := [], totalChunks := 0, processedChunks := 0,
    active := [], isSplittingComplete := false, chunkQueue := [],
    emitted := [], resolvedVal := none }

/-- The interleaving semantics of one job: at any moment the watcher may
discover new chunks (only while splitting is unfinished), the splitter may
signal completion, or any in-flight chunk may finish with the outcome its
retried transcription attempts determine. -/
inductive PoolStep (attempts : ℕ → ℕ → Except String String) :
    PoolState → PoolState → Prop
  | discover (s : PoolState) (k : ℕ) (hk : 0 < k)
      (hsplit : s.isSplittingComplete = false) :
      PoolStep attempts s (discoverChunks k s)
  | split (s : PoolState) (hsplit : s.isSplittingComplete = false) :
      PoolStep attempts s (splitComplete s)
  | finish (s : PoolState) (i : ℕ) (hi : i ∈ s.active) :
      PoolStep attempts s (finishChunk attempts i s)

/-- A job state reachable from the start by some interleaving. -/
def PoolReachable (attempts : ℕ → ℕ → Except String String)
    (s : PoolState) : Prop :=
  Relation.ReflTransGen (PoolStep attempts) initState s

/-- The job invariant: every discovered index sits in exactly one of the
result map, the queue, or the in-flight list; recorded texts are the retry
outcomes; the processed counter counts results; at most
MAX_CONCURRENT_CHUNKS chunks are in flight; a resolved value only ever
comes from the completion condition; the emission stream carries
non-decreasing processed counters bounded by the current counter. -/
structure PoolInv (attempts : ℕ → ℕ → Except String String) (s : PoolState) :
    Prop where
  occupancy : ((s.transcriptionResults.map Prod.fst : List ℕ) : Multiset ℕ) +
      (s.chunkQueue : Multiset ℕ) + (s.active : Multiset ℕ) =
      ((List.range s.totalChunks : List ℕ) : Multiset ℕ)
  resOk : ∀ p ∈ s.transcriptionResults,
      p.2 = chunkResultText p.1 (runWithRetry (attempts p.1))
  procEq : s.processedChunks = s.transcriptionResults.length
  conc : s.active.length ≤ MAX_CONCURRENT_CHUNKS
  resolvedChar : ∀ v, s.resolvedVal = some v →
      s.isSplittingComplete = true ∧ s.processedChunks = s.totalChunks ∧
      v = combinedTranscription s.transcriptionResults s.totalChunks
  chain : s.emitted.Chain' (fun a b => b.1 ≤ a.1)
  headLe : ∀ e ∈ s.emitted.head?, e.1 ≤ s.processedChunks

/-- Completion is always acted upon: a job state with splitting complete
and all discovered chunks processed has resolved. -/
def resolvedWhenComplete (s : PoolState) : Prop :=
  s.isSplittingComplete = true → s.processedChunks = s.totalChunks →
    ∃ v, s.resolvedVal = some v

/-- Decidable equality of transcription outcomes. -/
instance exceptStringDecEq : DecidableEq (Except String String) := fun x y =>
  match x, y with
  | Except.ok a, Except.ok b =>
    if h : a = b then isTrue (by rw [h]) else
      isFalse (by intro hc; cases hc; exact h rfl)
  | Except.ok _, Except.error _ => isFalse (by intro hc; cases hc)
  | Except.error _, Except.ok _ => isFalse (by intro hc; cases hc)
  | Except.error a, Except.error b =>
    if h : a = b then isTrue (by rw [h]) else
      isFalse (by intro hc; cases hc; exact h rfl)

/-- Texts of the three-chunk success scenario. -/
def textsW1 : ℕ → String :=
  fun i => if i = 0 then "alpha" else if i = 1 then "beta" else "gamma"

/-- Transcription attempts of the three-chunk success scenario: every chunk
succeeds on its first attempt. -/
def attemptsW1 : ℕ → ℕ → Except String String :=
  fun i _ => Except.ok (textsW1 i)

/-- Success scenario, after discovering three chunks. -/
def sW1a : PoolState := discoverChunks 3 initState

/-- Success scenario, after chunk 0 finishes. -/
def sW1b : PoolState := finishChunk attemptsW1 0 sW1a

/-- Success scenario, after chunk 1 finishes. -/
def sW1c : PoolState := finishChunk attemptsW1 1 sW1b

/-- Success scenario, after chunk 2 finishes. -/
def sW1d : PoolState := finishChunk attemptsW1 2 sW1c

/-- Success scenario, after splitting signals completion. -/
def sW1e : PoolState := splitComplete sW1d

/-- Texts of the empty-middle-chunk scenario. -/
def textsE1 : ℕ → String :=
  fun i => if i = 0 then "alpha" else if i = 1 then "" else "gamma"

/-- Transcription attempts of the empty-middle-chunk scenario: every chunk
succeeds on its first attempt, chunk 1 with the empty string. -/
def attemptsE1 : ℕ → ℕ → Except String String :=
  fun i _ => Except.ok (textsE1 i)

/-- Empty-text scenario, after discovering three chunks. -/
def sE1a : PoolState := discoverChunks 3 initState

/-- Empty-text scenario, after chunk 0 finishes. -/
def sE1b : PoolState := finishChunk attemptsE1 0 sE1a

/-- Empty-text scenario, after chunk 1 finishes. -/
def sE1c : PoolState := finishChunk attemptsE1 1 sE1b

/-- Empty-text scenario, after chunk 2 finishes. -/
def sE1d : PoolState := finishChunk attemptsE1 2 sE1c

/-- Empty-text scenario, after splitting signals completion. -/
def sE1e : PoolState := splitComplete sE1d

/-- Transcription attempts of the shrinking-percentage scenario: every
chunk succeeds at once. -/
def attemptsC3 : ℕ → ℕ → Except String String :=
  fun _ _ => Except.ok "text"

/-- Shrinking-percentage scenario, after the watcher finds one chunk. -/
def sC3a : PoolState := discoverChunks 1 initState

/-- Shrinking-percentage scenario, after that chunk finishes. -/
def sC3b : PoolState := finishChunk attemptsC3 0 sC3a

/-- Shrinking-percentage scenario, after the watcher finds a second chunk
while splitting is still running. -/
def sC3c : PoolState := discoverChunks 1 sC3b

/-- Texts of the one-failing-chunk scenario. -/
def textsW4 : ℕ → String :=
  fun i => if i = 0 then "hello" else if i = 2 then "world" else "x"

/-- Transcription attempts of the one-failing-chunk scenario: chunk 1 fails
every attempt with the same message, the others succeed at once. -/
def attemptsW4 : ℕ → ℕ → Except String String :=
  fun i _ =>
    if i = 1 then Except.error "rate limited" else Except.ok (textsW4 i)

/-- Failure scenario, after discovering three chunks. -/
def sW4a : PoolState := discoverChunks 3 initState

/-- Failure scenario, after chunk 0 finishes. -/
def sW4b : PoolState := finishChunk attemptsW4 0 sW4a

/-- Failure scenario, after chunk 1 exhausts its retries. -/
def sW4c : PoolState := finishChunk attemptsW4 1 sW4b

/-- Failure scenario, after chunk 2 finishes. -/
def sW4d : PoolState := finishChunk attemptsW4 2 sW4c

/-- Failure scenario, after splitting signals completion. -/
def sW4e : PoolState := splitComplete sW4d

/-- C2: for every input with positive size and positive duration the planner
returns a chunk duration within [MIN_CHUNK_DURATION, MAX_CHUNK_DURATION],
that is within [120, 1800] seconds inclusive. -/
theorem c2_chunk_duration_within_bounds (fileSize fileDuration : ℚ)
    (hs : 0 < fileSize) (hd : 0 < fileDuration) :
    MIN_CHUNK_DURATION ≤ calculateOptimalChunkDuration fileSize fileDuration ∧
    calculateOptimalChunkDuration fileSize fileDuration ≤ MAX_CHUNK_DURATION := by
  unfold calculateOptimalChunkDuration MIN_CHUNK_DURATION MAX_CHUNK_DURATION
  refine ⟨le_max_left _ _, max_le (by norm_num) ?_⟩
  exact le_trans (min_le_left _ _) (by norm_num)

/-- C2 witness: the planner bound theorem applied at a concrete input,
a 30720000-byte file lasting 600 seconds. -/
theorem c2_chunk_duration_witness :
    MIN_CHUNK_DURATION ≤ calculateOptimalChunkDuration 30720000 600 ∧
    calculateOptimalChunkDuration 30720000 600 ≤ MAX_CHUNK_DURATION :=
  c2_chunk_duration_within_bounds 30720000 600 (by norm_num) (by norm_num)

/-- C7 counterexample: at estimated bitrate 50 KiB/s (a 30720000-byte file of
600 seconds) the planner computes floor(24 * 1024 * 1024 / 51200) = 491
seconds, strictly more than the 480 seconds the claim states. -/
theorem c7_planner_counterexample :
    calculateOptimalChunkDuration 30720000 600 = 491 ∧ (480 : ℤ) < 491 := by
  constructor
  · unfold calculateOptimalChunkDuration
    norm_num [MB, MIN_CHUNK_DURATION]
  · decide

/-- C7 amended: for a file whose estimated bitrate is 50 KiB/s (51200 bytes
per second) against the 24 MiB target, the raw optimal duration is
floor(25165824 / 51200) = 491 seconds, which lies in the clamp bounds
[120, 1800], so the planner chooses 491 seconds. -/
theorem c7_planner_amended :
    calculateOptimalChunkDuration 30720000 600 = 491 ∧
    MIN_CHUNK_DURATION ≤ (491 : ℤ) ∧ (491 : ℤ) ≤ MAX_CHUNK_DURATION := by
  refine ⟨?_, by decide, by decide⟩
  unfold calculateOptimalChunkDuration
  norm_num [MB, MIN_CHUNK_DURATION]

/-- C9: an uploaded file of size at most 25 * 1024 * 1024 bytes, the limit
itself included, is handled on the single-request path, which answers with
exactly one response object; the chunked pipeline is entered exactly when
the size strictly exceeds the limit. -/
theorem c9_small_file_single_path (fileSize : ℕ) :
    (fileSize ≤ OPENAI_WHISPER_LIMIT →
      transcribeRoute true fileSize = RoutePath.singleRequest) ∧
    (transcribeRoute true fileSize = RoutePath.chunkedPipeline ↔
      OPENAI_WHISPER_LIMIT < fileSize) ∧
    (∀ tr : Except String String,
      (smallFileHandler true tr).countP isRespondEv = 1) := by
  refine ⟨?_, ?_, ?_⟩
  · intro h
    simp [transcribeRoute, Nat.not_lt.mpr h]
  · rcases lt_or_le OPENAI_WHISPER_LIMIT fileSize with h | h
    · simp [transcribeRoute, h]
    · simp [transcribeRoute, Nat.not_lt.mpr h]
  · intro tr
    cases tr <;> rfl

/-- C9 witness: the routing theorem applied at the boundary size of exactly
25 * 1024 * 1024 bytes, which stays on the single-request path. -/
theorem c9_small_file_witness :
    transcribeRoute true (25 * MB) = RoutePath.singleRequest :=
  (c9_small_file_single_path (25 * MB)).1 (by decide)

/-- C10: on the small-file path a successful transcription produces the
event trace save, delete the upload, then the 200 response, so the upload
is deleted before the success response is sent; a failing transcription
produces only the single 500 response, so the upload is never deleted. -/
theorem c10_small_file_cleanup :
    (∀ text : String,
      smallFileHandler true (Except.ok text) =
        [HandlerEv.saveTranscript text, HandlerEv.deleteUpload,
         HandlerEv.respond 200 true]) ∧
    (∀ msg : String,
      smallFileHandler true (Except.error msg) = [HandlerEv.respond 500 false]) := by
  exact ⟨fun _ => rfl, fun _ => rfl⟩

/-- C6: running the repair scan on chunks that are all at or under the hard
size limit is a no-op: it returns the chunks unchanged with an empty list
of file operations, without recursing into a repair pass. -/
theorem c6_repair_noop (split : AudioChunk → ℕ → List AudioChunk)
    (segmentDuration fuel : ℕ) (chunks : List AudioChunk)
    (hfuel : 0 < fuel)
    (hcomp : chunks.all (fun c => !oversizedChunk c) = true) :
    verifyAndResplitChunks split segmentDuration fuel chunks = some (chunks, []) := by
  cases fuel with
  | zero => exact absurd hfuel (by decide)
  | succ n => simp [verifyAndResplitChunks, hcomp]

/-- C6 witness: the no-op theorem applied to one concrete compliant chunk. -/
theorem c6_repair_noop_witness :
    verifyAndResplitChunks copySplit 600 1 [⟨100, 10 * MB⟩] =
      some ([⟨100, 10 * MB⟩], []) :=
  c6_repair_noop copySplit 600 1 [⟨100, 10 * MB⟩] (by decide) (by decide)

/-- C5 counterexample: on an oversized chunk that cannot be reduced, three
successive repair passes all use the same re-split duration 300 = max(1,
600 / 2) instead of halving it each pass (the claim would demand 150 on the
second pass, and 150 < 300), and the cycle has not terminated after three
passes. -/
theorem c5_repair_counterexample :
    repairDurations copySplit 600 3 [stuckChunk] = [300, 300, 300] ∧
    (150 : ℕ) < 300 ∧
    verifyAndResplitChunks copySplit 600 3 [stuckChunk] = none := by
  refine ⟨by decide, by decide, by decide⟩

/-- C5 amended: the repair cycle re-splits oversized chunks at max(1,
floor(originalSegmentDuration / 2)), the same duration on every recursive
pass rather than halving per pass; whenever it returns, every returned
chunk is within the hard size limit, but it is not guaranteed to terminate:
no RepairExhaustedError exists, and on an oversized chunk no longer than
the fixed re-split duration it recurses forever. -/
theorem c5_repair_amended :
    (∀ (split : AudioChunk → ℕ → List AudioChunk) (segmentDuration fuel : ℕ)
      (chunks final : List AudioChunk) (ops : List FileOp),
      verifyAndResplitChunks split segmentDuration fuel chunks = some (final, ops) →
      final.all (fun c => !oversizedChunk c) = true) ∧
    (∀ fuel : ℕ, verifyAndResplitChunks copySplit 600 fuel [stuckChunk] = none) := by
  constructor
  · intro split segmentDuration fuel
    induction fuel with
    | zero => intro chunks final ops h; simp [verifyAndResplitChunks] at h
    | succ n ih =>
      intro chunks final ops h
      rw [verifyAndResplitChunks] at h
      by_cases hc : chunks.all (fun c => !oversizedChunk c) = true
      · rw [if_pos hc] at h
        simp only [Option.some.injEq, Prod.mk.injEq] at h
        exact h.1 ▸ hc
      · rw [if_neg hc] at h
        rcases hrec : verifyAndResplitChunks split segmentDuration n
            (repairPass split (newSegmentDuration segmentDuration) chunks).1 with
          _ | ⟨f2, o2⟩
        · rw [hrec] at h; exact absurd h (by simp)
        · rw [hrec] at h
          simp only [Option.some.injEq, Prod.mk.injEq] at h
          exact h.1 ▸ ih _ _ _ hrec
  · intro fuel
    induction fuel with
    | zero => rfl
    | succ n ih =>
      rw [verifyAndResplitChunks]
      rw [if_neg (by decide)]
      have hpass : (repairPass copySplit (newSegmentDuration 600) [stuckChunk]).1 =
          [stuckChunk] := by decide
      rw [hpass, ih]

/-- C5 witness: the amended theorem's compliance clause applied to a
concrete terminating run on one compliant chunk. -/
theorem c5_repair_witness :
    ([(⟨100, 10 * MB⟩ : AudioChunk)]).all (fun c => !oversizedChunk c) = true :=
  c5_repair_amended.1 copySplit 600 1 [⟨100, 10 * MB⟩] [⟨100, 10 * MB⟩] []
    (by decide)

/-- The dispatch loop does not touch results, counters, the split flag or
the resolved value. -/
theorem dispatchGo_const (q : List ℕ) (s : PoolState) :
    (dispatchGo s q).transcriptionResults = s.transcriptionResults ∧
    (dispatchGo s q).totalChunks = s.totalChunks ∧
    (dispatchGo s q).processedChunks = s.processedChunks ∧
    (dispatchGo s q).isSplittingComplete = s.isSplittingComplete ∧
    (dispatchGo s q).resolvedVal = s.resolvedVal := by
  induction q generalizing s with
  | nil => simp [dispatchGo]
  | cons i rest ih =>
    rw [dispatchGo]
    by_cases h : s.active.length < MAX_CONCURRENT_CHUNKS
    · rw [if_pos h]
      simpa using ih _
    · rw [if_neg h]
      simp

/-- The dispatch loop only moves indices from the queue into the in-flight
list: the multiset of queued plus in-flight indices is preserved. -/
theorem dispatchGo_occupancy (q : List ℕ) (s : PoolState) :
    ((dispatchGo s q).chunkQueue : Multiset ℕ) + ((dispatchGo s q).active : Multiset ℕ) =
    (q : Multiset ℕ) + (s.active : Multiset ℕ) := by
  induction q generalizing s with
  | nil => simp [dispatchGo]
  | cons i rest ih =>
    rw [dispatchGo]
    by_cases h : s.active.length < MAX_CONCURRENT_CHUNKS
    · rw [if_pos h]
      have h2 := ih { s with active := i :: s.active,
                             emitted := (s.processedChunks, s.totalChunks) :: s.emitted }
      simp only [← Multiset.cons_coe, Multiset.cons_add, Multiset.add_cons] at h2 ⊢
      exact h2
    · rw [if_neg h]

/-- The dispatch loop keeps the number of in-flight chunks bounded by
MAX_CONCURRENT_CHUNKS: it dispatches only while strictly below the bound. -/
theorem dispatchGo_active_le (q : List ℕ) (s : PoolState)
    (h : s.active.length ≤ MAX_CONCURRENT_CHUNKS) :
    (dispatchGo s q).active.length ≤ MAX_CONCURRENT_CHUNKS := by
  induction q generalizing s with
  | nil => simpa [dispatchGo]
  | cons i rest ih =>
    rw [dispatchGo]
    by_cases hlt : s.active.length < MAX_CONCURRENT_CHUNKS
    · rw [if_pos hlt]
      exact ih _ (by simpa using hlt)
    · rw [if_neg hlt]
      simpa using h

/-- Every progress update the dispatch loop emits carries the current
processed and total counters: the emitted stream grows by some number of
copies of the present pair. -/
theorem dispatchGo_emitted (q : List ℕ) (s : PoolState) :
    ∃ m, (dispatchGo s q).emitted =
      List.replicate m (s.processedChunks, s.totalChunks) ++ s.emitted := by
  induction q generalizing s with
  | nil => exact ⟨0, by simp [dispatchGo]⟩
  | cons i rest ih =>
    rw [dispatchGo]
    by_cases hlt : s.active.length < MAX_CONCURRENT_CHUNKS
    · rw [if_pos hlt]
      obtain ⟨m, hm⟩ := ih { s with active := i :: s.active,
                                    emitted := (s.processedChunks, s.totalChunks) :: s.emitted }
      refine ⟨m + 1, ?_⟩
      simp only at hm
      rw [hm, List.replicate_succ', List.append_assoc, List.singleton_append]
    · exact ⟨0, by rw [if_neg hlt]; simp⟩

/-- checkCompletion changes nothing but possibly the resolved value. -/
theorem checkCompletion_const (s : PoolState) :
    (checkCompletion s).transcriptionResults = s.transcriptionResults ∧
    (checkCompletion s).totalChunks = s.totalChunks ∧
    (checkCompletion s).processedChunks = s.processedChunks ∧
    (checkCompletion s).active = s.active ∧
    (checkCompletion s).isSplittingComplete = s.isSplittingComplete ∧
    (checkCompletion s).chunkQueue = s.chunkQueue ∧
    (checkCompletion s).emitted = s.emitted := by
  unfold checkCompletion
  split <;> simp

/-- A resolved value after checkCompletion was either already there, or was
just produced from the completion condition. -/
theorem checkCompletion_resolved (s : PoolState) (v : String)
    (h : (checkCompletion s).resolvedVal = some v) :
    s.resolvedVal = some v ∨
    (s.isSplittingComplete = true ∧ s.processedChunks = s.totalChunks ∧
      v = combinedTranscription s.transcriptionResults s.totalChunks) := by
  unfold checkCompletion at h
  split at h
  · rename_i hc
    simp only at h
    right
    exact ⟨hc.1, hc.2.1, (Option.some.injEq .. ▸ h).symm⟩
  · left
    exact h

/-- Once splitting is complete and all chunks are processed, checkCompletion
leaves the job resolved. -/
theorem checkCompletion_fires (s : PoolState)
    (h1 : s.isSplittingComplete = true) (h2 : s.processedChunks = s.totalChunks) :
    ∃ v, (checkCompletion s).resolvedVal = some v := by
  unfold checkCompletion
  split
  · exact ⟨_, rfl⟩
  · rename_i hc
    cases hr : s.resolvedVal with
    | none => exact absurd ⟨h1, h2, hr⟩ hc
    | some v => exact ⟨v, rfl⟩

/-- Splitting List.range at a point: the discovered indices so far followed
by the k newly discovered ones. -/
theorem range_append_range' (a k : ℕ) :
    List.range a ++ List.range' a k = List.range (a + k) := by
  rw [List.range_eq_range', List.range_eq_range']
  have h := List.range'_append_1 0 a k
  rw [Nat.add_comm a k]
  simpa using h

/-- When every discovered chunk is processed, the queue and the in-flight
list are empty. -/
theorem inv_complete_empty {attempts : ℕ → ℕ → Except String String}
    {s : PoolState} (hinv : PoolInv attempts s)
    (hp : s.processedChunks = s.totalChunks) :
    s.chunkQueue = [] ∧ s.active = [] := by
  have hc := congrArg Multiset.card hinv.occupancy
  simp only [Multiset.card_add, Multiset.coe_card, List.length_map,
    List.length_range] at hc
  have hq : s.chunkQueue.length = 0 ∧ s.active.length = 0 := by
    have := hinv.procEq
    omega
  exact ⟨List.eq_nil_of_length_eq_zero hq.1, List.eq_nil_of_length_eq_zero hq.2⟩

/-- Prepending copies of an emission whose processed counter dominates the
head keeps the emission chain and its head bound. -/
theorem chain_replicate_prepend (m p t : ℕ) (l : List (ℕ × ℕ))
    (hch : l.Chain' (fun a b => b.1 ≤ a.1))
    (hhd : ∀ e ∈ l.head?, e.1 ≤ p) :
    (List.replicate m (p, t) ++ l).Chain' (fun a b => b.1 ≤ a.1) ∧
    ∀ e ∈ (List.replicate m (p, t) ++ l).head?, e.1 ≤ p := by
  induction m with
  | zero => exact ⟨by simpa, by simpa using hhd⟩
  | succ n ih =>
    rw [List.replicate_succ, List.cons_append]
    refine ⟨List.chain'_cons'.mpr ⟨fun b hb => ih.2 b hb, ih.1⟩, ?_⟩
    intro e he
    simp only [List.head?_cons, Option.mem_def, Option.some.injEq] at he
    subst he
    exact le_refl p

/-- The invariant holds at the initial job state. -/
theorem poolInv_init (attempts : ℕ → ℕ → Except String String) :
    PoolInv attempts initState := by
  refine ⟨?_, ?_, ?_, ?_, ?_, ?_, ?_⟩ <;>
    simp [initState, MAX_CONCURRENT_CHUNKS]

/-- Running the dispatch loop preserves the job invariant. -/
theorem inv_checkForMoreChunks (attempts : ℕ → ℕ → Except String String)
    (s : PoolState) (hinv : PoolInv attempts s) :
    PoolInv attempts (checkForMoreChunks s) := by
  unfold checkForMoreChunks
  obtain ⟨hres, htot, hproc, hspl, hresolved⟩ := dispatchGo_const s.chunkQueue s
  obtain ⟨m, hemit⟩ := dispatchGo_emitted s.chunkQueue s
  have hocc := dispatchGo_occupancy s.chunkQueue s
  have hrep := chain_replicate_prepend m s.processedChunks s.totalChunks
    s.emitted hinv.chain hinv.headLe
  refine ⟨?_, ?_, ?_, ?_, ?_, ?_, ?_⟩
  · rw [hres, htot, add_assoc, hocc, ← add_assoc]
    exact hinv.occupancy
  · rw [hres]
    exact hinv.resOk
  · rw [hproc, hres]
    exact hinv.procEq
  · exact dispatchGo_active_le _ _ hinv.conc
  · intro v hv
    rw [hresolved] at hv
    obtain ⟨h1, h2, h3⟩ := hinv.resolvedChar v hv
    refine ⟨by rw [hspl]; exact h1, by rw [hproc, htot]; exact h2, ?_⟩
    rw [hres, htot]
    exact h3
  · rw [hemit]
    exact hrep.1
  · rw [hemit, hproc]
    exact hrep.2

/-- checkCompletion preserves the job invariant. -/
theorem inv_checkCompletion (attempts : ℕ → ℕ → Except String String)
    (s : PoolState) (hinv : PoolInv attempts s) :
    PoolInv attempts (checkCompletion s) := by
  obtain ⟨hres, htot, hproc, hact, hspl, hq, hemit⟩ := checkCompletion_const s
  refine ⟨?_, ?_, ?_, ?_, ?_, ?_, ?_⟩
  · rw [hres, hq, hact, htot]
    exact hinv.occupancy
  · rw [hres]
    exact hinv.resOk
  · rw [hproc, hres]
    exact hinv.procEq
  · rw [hact]
    exact hinv.conc
  · intro v hv
    rcases checkCompletion_resolved s v hv with hold | ⟨h1, h2, h3⟩
    · obtain ⟨a1, a2, a3⟩ := hinv.resolvedChar v hold
      exact ⟨by rw [hspl]; exact a1, by rw [hproc, htot]; exact a2,
        by rw [hres, htot]; exact a3⟩
    · exact ⟨by rw [hspl]; exact h1, by rw [hproc, htot]; exact h2,
        by rw [hres, htot]; exact h3⟩
  · rw [hemit]
    exact hinv.chain
  · rw [hemit, hproc]
    exact hinv.headLe

/-- After checkCompletion the completion condition implies a resolved
value. -/
theorem resolved_checkCompletion (s : PoolState) :
    resolvedWhenComplete (checkCompletion s) := by
  intro h1 h2
  obtain ⟨hres, htot, hproc, hact, hspl, hq, hemit⟩ := checkCompletion_const s
  rw [hspl] at h1
  rw [hproc, htot] at h2
  exact checkCompletion_fires s h1 h2

/-- Queueing k newly discovered chunk indices preserves the job
invariant. -/
theorem inv_discover_entry (attempts : ℕ → ℕ → Except String String)
    (s : PoolState) (k : ℕ) (hsplit : s.isSplittingComplete = false)
    (hinv : PoolInv attempts s) :
    PoolInv attempts
      { s with chunkQueue := s.chunkQueue ++ List.range' s.totalChunks k,
               totalChunks := s.totalChunks + k } := by
  refine ⟨?_, hinv.resOk, hinv.procEq, hinv.conc, ?_, hinv.chain, hinv.headLe⟩
  · show ((s.transcriptionResults.map Prod.fst : List ℕ) : Multiset ℕ) +
        ((s.chunkQueue ++ List.range' s.totalChunks k : List ℕ) : Multiset ℕ) +
        (s.active : Multiset ℕ) =
        ((List.range (s.totalChunks + k) : List ℕ) : Multiset ℕ)
    rw [← range_append_range', ← Multiset.coe_add, ← Multiset.coe_add]
    rw [← hinv.occupancy]
    abel
  · intro v hv
    obtain ⟨h1, _, _⟩ := hinv.resolvedChar v hv
    rw [hsplit] at h1
    exact absurd h1 Bool.false_ne_true

/-- Marking splitting complete preserves the job invariant. -/
theorem inv_split_entry (attempts : ℕ → ℕ → Except String String)
    (s : PoolState) (hinv : PoolInv attempts s) :
    PoolInv attempts { s with isSplittingComplete := true } := by
  refine ⟨hinv.occupancy, hinv.resOk, hinv.procEq, hinv.conc, ?_,
    hinv.chain, hinv.headLe⟩
  intro v hv
  obtain ⟨_, h2, h3⟩ := hinv.resolvedChar v hv
  exact ⟨rfl, h2, h3⟩

/-- Recording the terminal result of an in-flight chunk preserves the job
invariant. -/
theorem inv_finish_entry (attempts : ℕ → ℕ → Except String String)
    (s : PoolState) (i : ℕ) (hi : i ∈ s.active)
    (hinv : PoolInv attempts s) :
    PoolInv attempts
      { s with
          transcriptionResults :=
            (i, chunkResultText i (runWithRetry (attempts i))) :: s.transcriptionResults,
          processedChunks := s.processedChunks + 1,
          emitted := (s.processedChunks + 1, s.totalChunks) :: s.emitted,
          active := s.active.erase i } := by
  refine ⟨?_, ?_, ?_, ?_, ?_, ?_, ?_⟩
  · have hact : (s.active : Multiset ℕ) = i ::ₘ ((s.active.erase i : List ℕ) : Multiset ℕ) :=
      Multiset.coe_eq_coe.mpr (List.perm_cons_erase hi)
    have h0 := hinv.occupancy
    rw [hact] at h0
    show ((((i, chunkResultText i (runWithRetry (attempts i))) ::
        s.transcriptionResults).map Prod.fst : List ℕ) : Multiset ℕ) +
        (s.chunkQueue : Multiset ℕ) +
        ((s.active.erase i : List ℕ) : Multiset ℕ) =
        ((List.range s.totalChunks : List ℕ) : Multiset ℕ)
    simp only [List.map_cons, ← Multiset.cons_coe, Multiset.cons_add,
      Multiset.add_cons] at h0 ⊢
    exact h0
  · intro p hp
    rcases List.mem_cons.mp hp with rfl | hp2
    · rfl
    · exact hinv.resOk p hp2
  · show s.processedChunks + 1 = _
    simp [hinv.procEq]
  · exact le_trans (List.erase_sublist i s.active).length_le hinv.conc
  · intro v hv
    obtain ⟨_, h2, _⟩ := hinv.resolvedChar v hv
    obtain ⟨_, ha⟩ := inv_complete_empty hinv h2
    rw [ha] at hi
    exact absurd hi (List.not_mem_nil i)
  · refine List.chain'_cons'.mpr ⟨?_, hinv.chain⟩
    intro b hb
    exact le_trans (hinv.headLe b hb) (Nat.le_succ _)
  · intro e he
    simp only [List.head?_cons, Option.mem_def, Option.some.injEq] at he
    subst he
    exact le_refl _

/-- Every step of the job semantics preserves the invariant. -/
theorem poolStep_inv (attempts : ℕ → ℕ → Except String String)
    {s s2 : PoolState} (hstep : PoolStep attempts s s2)
    (hinv : PoolInv attempts s) : PoolInv attempts s2 := by
  cases hstep with
  | discover k hk hsplit =>
    exact inv_checkForMoreChunks attempts _
      (inv_discover_entry attempts s k hsplit hinv)
  | split hsplit =>
    exact inv_checkCompletion attempts _ (inv_split_entry attempts s hinv)
  | finish i hi =>
    exact inv_checkCompletion attempts _
      (inv_checkForMoreChunks attempts _ (inv_finish_entry attempts s i hi hinv))

/-- Every step of the job semantics establishes the completion property. -/
theorem poolStep_resolved (attempts : ℕ → ℕ → Except String String)
    {s s2 : PoolState} (hstep : PoolStep attempts s s2) :
    resolvedWhenComplete s2 := by
  cases hstep with
  | discover k hk hsplit =>
    intro h1 h2
    unfold discoverChunks checkForMoreChunks at h1
    rw [(dispatchGo_const _ _).2.2.2.1] at h1
    simp only at h1
    rw [hsplit] at h1
    exact absurd h1 Bool.false_ne_true
  | split hsplit => exact resolved_checkCompletion _
  | finish i hi =>
    unfold finishChunk
    exact resolved_checkCompletion _

/-- Every reachable job state satisfies the invariant and the completion
property. -/
theorem poolReachable_inv (attempts : ℕ → ℕ → Except String String)
    {s : PoolState} (h : PoolReachable attempts s) :
    PoolInv attempts s ∧ resolvedWhenComplete s := by
  induction h with
  | refl =>
    refine ⟨poolInv_init attempts, ?_⟩
    intro h1 _
    simp [initState] at h1
  | tail _ hstep ih =>
    exact ⟨poolStep_inv attempts hstep ih.1, poolStep_resolved attempts hstep⟩

/-- In a result map with distinct keys, lookup finds the recorded entry. -/
theorem lookup_of_mem_nodup (l : List (ℕ × String)) (i : ℕ) (t : String)
    (hnd : (l.map Prod.fst).Nodup) (hmem : (i, t) ∈ l) :
    l.lookup i = some t := by
  induction l with
  | nil => cases hmem
  | cons p rest ih =>
    obtain ⟨a, b⟩ := p
    simp only [List.map_cons, List.nodup_cons] at hnd
    rcases List.mem_cons.mp hmem with heq | hmem2
    · cases heq
      exact List.lookup_cons_self
    · have hne : i ≠ a := by
        rintro rfl
        exact hnd.1 (List.mem_map.mpr ⟨(i, t), hmem2, rfl⟩)
      rw [List.lookup_cons, beq_eq_false_iff_ne.mpr hne]
      simp only [Bool.false_eq_true, if_false]
      exact ih hnd.2 hmem2

/-- At completion, the result recorded for every discovered index is the
retry outcome of its transcription. -/
theorem complete_lookup (attempts : ℕ → ℕ → Except String String)
    {s : PoolState} (hinv : PoolInv attempts s)
    (hp : s.processedChunks = s.totalChunks) {i : ℕ}
    (hi : i < s.totalChunks) :
    s.transcriptionResults.lookup i =
      some (chunkResultText i (runWithRetry (attempts i))) := by
  obtain ⟨hq, ha⟩ := inv_complete_empty hinv hp
  have hocc := hinv.occupancy
  rw [hq, ha] at hocc
  have hperm : (s.transcriptionResults.map Prod.fst).Perm
      (List.range s.totalChunks) := by
    rw [← Multiset.coe_eq_coe]
    simpa using hocc
  have hnd : (s.transcriptionResults.map Prod.fst).Nodup :=
    hperm.nodup_iff.mpr (List.nodup_range s.totalChunks)
  have hmemk : i ∈ s.transcriptionResults.map Prod.fst :=
    hperm.mem_iff.mpr (List.mem_range.mpr hi)
  obtain ⟨p, hpmem, hpfst⟩ := List.mem_map.mp hmemk
  obtain ⟨a, b⟩ := p
  have haeq : a = i := hpfst
  subst haeq
  have ht := hinv.resOk (a, b) hpmem
  rw [lookup_of_mem_nodup _ _ _ hnd hpmem]
  exact congrArg some ht

/-- General run theorem: in every reachable job state where splitting is
complete and every discovered chunk is processed, the job has resolved
with the truthy retry outcomes of the chunks, joined in ascending index
order. -/
theorem pool_completion (attempts : ℕ → ℕ → Except String String)
    {s : PoolState} (h : PoolReachable attempts s)
    (hd : s.isSplittingComplete = true)
    (hp : s.processedChunks = s.totalChunks) :
    s.resolvedVal = some (String.intercalate " "
      ((List.range s.totalChunks).filterMap (fun i =>
        if chunkResultText i (runWithRetry (attempts i)) = "" then none
        else some (chunkResultText i (runWithRetry (attempts i)))))) := by
  obtain ⟨hinv, hdone⟩ := poolReachable_inv attempts h
  obtain ⟨v, hv⟩ := hdone hd hp
  obtain ⟨_, _, hveq⟩ := hinv.resolvedChar v hv
  rw [hv, hveq]
  unfold combinedTranscription
  congr 2
  apply List.filterMap_congr
  intro i hi
  unfold lookupTruthy
  rw [complete_lookup attempts hinv hp (List.mem_range.mp hi)]

/-- A first-attempt success makes the retry loop return that text. -/
theorem runWithRetry_first_ok (attempt : ℕ → Except String String)
    (t : String) (h : attempt 0 = Except.ok t) :
    runWithRetry attempt = Except.ok t := by
  simp [runWithRetry, maxRetries, attemptsLeft, h]

/-- When every attempt fails with message m, the retry loop rethrows m. -/
theorem runWithRetry_all_fail (attempt : ℕ → Except String String)
    (m : String) (h : ∀ a, attempt a = Except.error m) :
    runWithRetry attempt = Except.error m := by
  simp [runWithRetry, maxRetries, attemptsLeft, h 0, h 1, h 2]

/-- The failure placeholder is never the empty string. -/
theorem placeholderText_ne_empty (i : ℕ) (m : String) :
    placeholderText i m ≠ "" := by
  intro h
  have hlen := congrArg String.length h
  unfold placeholderText at hlen
  simp only [String.length_append] at hlen
  have h1 : ("[Error: Chunk " : String).length = 14 := rfl
  have h2 : (" failed to transcribe - " : String).length = 24 := rfl
  have h3 : ("]" : String).length = 1 := rfl
  have h4 : ("" : String).length = 0 := rfl
  omega

/-- Truthy filtering of an everywhere-nonempty text family is the plain
map. -/
theorem filterMap_truthy_eq_map (l : List ℕ) (g : ℕ → String)
    (h : ∀ i ∈ l, g i ≠ "") :
    l.filterMap (fun i => if g i = "" then none else some (g i)) = l.map g := by
  induction l with
  | nil => rfl
  | cons x xs ih =>
    simp only [List.filterMap_cons, List.map_cons,
      if_neg (h x (List.mem_cons_self x xs))]
    rw [ih (fun i hi => h i (List.mem_cons_of_mem x hi))]

/-- Completed runs resolve with the space-join, in ascending index order,
of any nonempty text family matching the per-chunk retry outcomes. -/
theorem pool_completion_texts (attempts : ℕ → ℕ → Except String String)
    {s : PoolState} (h : PoolReachable attempts s)
    (hd : s.isSplittingComplete = true)
    (hp : s.processedChunks = s.totalChunks) (g : ℕ → String)
    (hg : ∀ i, i < s.totalChunks →
      chunkResultText i (runWithRetry (attempts i)) = g i)
    (hgne : ∀ i, i < s.totalChunks → g i ≠ "") :
    s.resolvedVal = some (String.intercalate " "
      ((List.range s.totalChunks).map g)) := by
  rw [pool_completion attempts h hd hp]
  refine congrArg (fun l => some (String.intercalate " " l)) ?_
  have h1 : (List.range s.totalChunks).filterMap (fun i =>
      if chunkResultText i (runWithRetry (attempts i)) = "" then none
      else some (chunkResultText i (runWithRetry (attempts i)))) =
      (List.range s.totalChunks).filterMap (fun i =>
      if g i = "" then none else some (g i)) :=
    List.filterMap_congr (fun i hi => by rw [hg i (List.mem_range.mp hi)])
  rw [h1, filterMap_truthy_eq_map _ _ (fun i hi => hgne i (List.mem_range.mp hi))]

/-- At completion, every discovered index has its retry outcome recorded in
the result map. -/
theorem complete_mem (attempts : ℕ → ℕ → Except String String)
    {s : PoolState} (hinv : PoolInv attempts s)
    (hp : s.processedChunks = s.totalChunks) {i : ℕ}
    (hi : i < s.totalChunks) :
    (i, chunkResultText i (runWithRetry (attempts i))) ∈
      s.transcriptionResults := by
  obtain ⟨hq, ha⟩ := inv_complete_empty hinv hp
  have hocc := hinv.occupancy
  rw [hq, ha] at hocc
  have hperm : (s.transcriptionResults.map Prod.fst).Perm
      (List.range s.totalChunks) := by
    rw [← Multiset.coe_eq_coe]
    simpa using hocc
  have hmemk : i ∈ s.transcriptionResults.map Prod.fst :=
    hperm.mem_iff.mpr (List.mem_range.mpr hi)
  obtain ⟨p, hpmem, hpfst⟩ := List.mem_map.mp hmemk
  obtain ⟨a, b⟩ := p
  have haeq : a = i := hpfst
  subst haeq
  have ht := hinv.resOk (a, b) hpmem
  have hb : b = chunkResultText a (runWithRetry (attempts a)) := ht
  rw [← hb]
  exact hpmem

/-- C1 amended: in every reachable completed job state whose chunks all
transcribed successfully on first attempt with nonempty texts, the resolved
transcript equals the space-joined concatenation of the chunk texts in
ascending index order, for every interleaving of discovery, dispatch and
completion the semantics admits. -/
theorem c1_assembly_ordered (attempts : ℕ → ℕ → Except String String)
    (texts : ℕ → String) (s : PoolState) (h : PoolReachable attempts s)
    (hd : s.isSplittingComplete = true)
    (hp : s.processedChunks = s.totalChunks)
    (hok : ∀ i, i < s.totalChunks → attempts i 0 = Except.ok (texts i))
    (hne : ∀ i, i < s.totalChunks → texts i ≠ "") :
    s.resolvedVal = some (String.intercalate " "
      ((List.range s.totalChunks).map texts)) := by
  refine pool_completion_texts attempts h hd hp texts ?_ hne
  intro i hi
  rw [runWithRetry_first_ok _ _ (hok i hi)]
  rfl

/-- C4: if one chunk's transcription fails on every attempt while all other
chunks succeed with nonempty texts, every reachable completed job state has
the placeholder recorded as that chunk's terminal result and resolves with
the transcript carrying the placeholder at that chunk's position and all
other texts in ascending index order; the job completes rather than
failing. -/
theorem c4_partial_failure (attempts : ℕ → ℕ → Except String String)
    (texts : ℕ → String) (s : PoolState) (h : PoolReachable attempts s)
    (hd : s.isSplittingComplete = true)
    (hp : s.processedChunks = s.totalChunks) (j : ℕ)
    (hj : j < s.totalChunks) (m : String)
    (hfail : ∀ a, attempts j a = Except.error m)
    (hok : ∀ i, i < s.totalChunks → i ≠ j → attempts i 0 = Except.ok (texts i))
    (hne : ∀ i, i < s.totalChunks → i ≠ j → texts i ≠ "") :
    ((j, placeholderText j m) ∈ s.transcriptionResults) ∧
    s.resolvedVal = some (String.intercalate " "
      ((List.range s.totalChunks).map (fun i =>
        if i = j then placeholderText j m else texts i))) := by
  have hjout : chunkResultText j (runWithRetry (attempts j)) =
      placeholderText j m := by
    rw [runWithRetry_all_fail _ _ hfail]
    rfl
  constructor
  · have hm := complete_mem attempts (poolReachable_inv attempts h).1 hp hj
    rw [hjout] at hm
    exact hm
  · refine pool_completion_texts attempts h hd hp _ ?_ ?_
    · intro i hi
      by_cases hij : i = j
      · subst hij
        rw [hjout, if_pos rfl]
      · rw [runWithRetry_first_ok _ _ (hok i hi hij), if_neg hij]
        rfl
    · intro i hi
      by_cases hij : i = j
      · subst hij
        rw [if_pos rfl]
        exact placeholderText_ne_empty i m
      · rw [if_neg hij]
        exact hne i hi hij

/-- C8: in every reachable job state the number of in-flight transcription
calls is bounded by MAX_CONCURRENT_CHUNKS, under every interleaving of
chunk discovery and worker completion the semantics admits. -/
theorem c8_bounded_concurrency (attempts : ℕ → ℕ → Except String String)
    (s : PoolState) (h : PoolReachable attempts s) :
    s.active.length ≤ MAX_CONCURRENT_CHUNKS :=
  (poolReachable_inv attempts h).1.conc

/-- C3 amended: within one job, consecutive progress emissions that share
the same discovered-total denominator have non-decreasing percentages; the
percentage may drop only when the denominator has grown in between. -/
theorem c3_progress_amended (attempts : ℕ → ℕ → Except String String)
    (s : PoolState) (h : PoolReachable attempts s) :
    s.emitted.Chain' (fun a b => b.2 = a.2 →
      progressValue b.1 b.2 ≤ progressValue a.1 a.2) := by
  refine List.Chain'.imp ?_ (poolReachable_inv attempts h).1.chain
  intro a b hle heq
  unfold progressValue
  rw [heq]
  have hmul : 70 * b.1 ≤ 70 * a.1 := Nat.mul_le_mul_left 70 hle
  have := Nat.div_le_div_right (c := a.2) hmul
  omega

/-- The success scenario is a run of the job semantics. -/
theorem reachW1 : PoolReachable attemptsW1 sW1e := by
  have h1 : PoolStep attemptsW1 initState sW1a :=
    PoolStep.discover initState 3 (by decide) rfl
  have h2 : PoolStep attemptsW1 sW1a sW1b := PoolStep.finish sW1a 0 (by decide)
  have h3 : PoolStep attemptsW1 sW1b sW1c := PoolStep.finish sW1b 1 (by decide)
  have h4 : PoolStep attemptsW1 sW1c sW1d := PoolStep.finish sW1c 2 (by decide)
  have h5 : PoolStep attemptsW1 sW1d sW1e := PoolStep.split sW1d (by decide)
  exact Relation.ReflTransGen.tail
    (Relation.ReflTransGen.tail
      (Relation.ReflTransGen.tail
        (Relation.ReflTransGen.tail (Relation.ReflTransGen.single h1) h2) h3)
      h4) h5

/-- C1 witness: the amended assembly theorem applied to the concrete
three-chunk success run, which resolves with the three texts space-joined
in ascending index order. -/
theorem c1_assembly_witness :
    sW1e.resolvedVal = some (String.intercalate " "
      ((List.range sW1e.totalChunks).map textsW1)) :=
  c1_assembly_ordered attemptsW1 textsW1 sW1e reachW1 (by decide) (by decide)
    (by decide) (by decide)

/-- The empty-text scenario is a run of the job semantics. -/
theorem reachE1 : PoolReachable attemptsE1 sE1e := by
  have h1 : PoolStep attemptsE1 initState sE1a :=
    PoolStep.discover initState 3 (by decide) rfl
  have h2 : PoolStep attemptsE1 sE1a sE1b := PoolStep.finish sE1a 0 (by decide)
  have h3 : PoolStep attemptsE1 sE1b sE1c := PoolStep.finish sE1b 1 (by decide)
  have h4 : PoolStep attemptsE1 sE1c sE1d := PoolStep.finish sE1c 2 (by decide)
  have h5 : PoolStep attemptsE1 sE1d sE1e := PoolStep.split sE1d (by decide)
  exact Relation.ReflTransGen.tail
    (Relation.ReflTransGen.tail
      (Relation.ReflTransGen.tail
        (Relation.ReflTransGen.tail (Relation.ReflTransGen.single h1) h2) h3)
      h4) h5

/-- C1 counterexample: a reachable completed run of three successfully
transcribed chunks whose middle text is the empty string resolves with
"alpha gamma", while the space-joined concatenation of the three texts is
"alpha  gamma" with two spaces: the completion check drops falsy
(empty-string) results, so the claimed equality fails. -/
theorem c1_assembly_counterexample :
    PoolReachable attemptsE1 sE1e ∧
    sE1e.transcriptionResults.lookup 1 = some "" ∧
    sE1e.resolvedVal = some "alpha gamma" ∧
    String.intercalate " " ((List.range 3).map textsE1) = "alpha  gamma" ∧
    ("alpha gamma" : String).length < ("alpha  gamma" : String).length :=
  ⟨reachE1, by decide, by decide, by decide, by decide⟩

/-- The shrinking-percentage scenario is a run of the job semantics. -/
theorem reachC3 : PoolReachable attemptsC3 sC3c := by
  have h1 : PoolStep attemptsC3 initState sC3a :=
    PoolStep.discover initState 1 (by decide) rfl
  have h2 : PoolStep attemptsC3 sC3a sC3b := PoolStep.finish sC3a 0 (by decide)
  have h3 : PoolStep attemptsC3 sC3b sC3c :=
    PoolStep.discover sC3b 1 (by decide) (by decide)
  exact Relation.ReflTransGen.tail
    (Relation.ReflTransGen.tail (Relation.ReflTransGen.single h1) h2) h3

/-- C3 counterexample: a reachable run emits, in order, percentages 20
(chunk 1 of 1 dispatched), 90 (1 of 1 processed), then 55 (1 of 2 after a
second chunk is discovered): the third emission is strictly below the
second, so the emitted percentage stream is not non-decreasing when the
discovered-segment denominator grows mid-flight. -/
theorem c3_progress_counterexample :
    PoolReachable attemptsC3 sC3c ∧
    sC3c.emitted = [(1, 2), (1, 1), (0, 1)] ∧
    progressValue 0 1 = 20 ∧ progressValue 1 1 = 90 ∧
    progressValue 1 2 = 55 ∧
    progressValue 1 2 < progressValue 1 1 :=
  ⟨reachC3, by decide, by decide, by decide, by decide, by decide⟩

/-- C3 witness: the amended monotonicity theorem applied to the concrete
shrinking-percentage run, whose emission stream satisfies the
equal-denominator chain. -/
theorem c3_progress_witness :
    sC3c.emitted.Chain' (fun a b => b.2 = a.2 →
      progressValue b.1 b.2 ≤ progressValue a.1 a.2) :=
  c3_progress_amended attemptsC3 sC3c reachC3

/-- The one-failing-chunk scenario is a run of the job semantics. -/
theorem reachW4 : PoolReachable attemptsW4 sW4e := by
  have h1 : PoolStep attemptsW4 initState sW4a :=
    PoolStep.discover initState 3 (by decide) rfl
  have h2 : PoolStep attemptsW4 sW4a sW4b := PoolStep.finish sW4a 0 (by decide)
  have h3 : PoolStep attemptsW4 sW4b sW4c := PoolStep.finish sW4b 1 (by decide)
  have h4 : PoolStep attemptsW4 sW4c sW4d := PoolStep.finish sW4c 2 (by decide)
  have h5 : PoolStep attemptsW4 sW4d sW4e := PoolStep.split sW4d (by decide)
  exact Relation.ReflTransGen.tail
    (Relation.ReflTransGen.tail
      (Relation.ReflTransGen.tail
        (Relation.ReflTransGen.tail (Relation.ReflTransGen.single h1) h2) h3)
      h4) h5

/-- C4 witness: the partial-failure theorem applied to the concrete
one-failing-chunk run, which records chunk 1's placeholder and resolves
with the placeholder between the two successful texts. -/
theorem c4_partial_failure_witness :
    ((1, placeholderText 1 "rate limited") ∈ sW4e.transcriptionResults) ∧
    sW4e.resolvedVal = some (String.intercalate " "
      ((List.range sW4e.totalChunks).map (fun i =>
        if i = 1 then placeholderText 1 "rate limited" else textsW4 i))) :=
  c4_partial_failure attemptsW4 textsW4 sW4e reachW4 (by decide) (by decide) 1
    (by decide) "rate limited" (fun _ => rfl) (by decide) (by decide)

/-- C8 witness: the concurrency bound theorem applied to the reachable
state in which three chunks were just discovered and dispatched. -/
theorem c8_bounded_concurrency_witness :
    (discoverChunks 3 initState).active.length ≤ MAX_CONCURRENT_CHUNKS :=
  c8_bounded_concurrency attemptsW1 (discoverChunks 3 initState)
    (Relation.ReflTransGen.single
      (PoolStep.discover initState 3 (by decide) rfl))
